import Mathlib

/-
Verification of the fixed-window audio segmentation and incremental
transcript assembly implemented by transcribe_segments.py.

The script is embedded shallowly:
* audio is represented by its total sample count N; the sample values only
  flow opaquely into the external recognizer, which is modelled as an
  oracle from window index to the outcome of the transcribe call;
* Python ints are Nat/Int; the float expressions of the script
  (sr * 0.5, math.ceil of the sample quotient, start / sr) are modelled
  exactly over the rationals;
* the output file is modelled by its content, an Option String
  (none meaning that no file exists at the output path).
-/

namespace TranscribeSegments

/-- Source line 18: sr = 16000, Whisper's fixed sample rate. -/
def sr : ℤ := 16000

/-- Source line 8: segment_sec = 30. -/
def segment_sec : ℤ := 30

/-- Source line 24: segment_samples is the int of segment_sec * sr; both
configuration values are integers in the source, so the conversion is
the identity and the product is 480000. -/
def segment_samples : ℕ := (segment_sec * sr).toNat

/-- Source line 36: start = i * segment_samples. -/
def segStart (s i : ℕ) : ℕ := i * s

/-- Source line 37: end is the minimum of (i + 1) * segment_samples and
total_samples. -/
def segEnd (s N i : ℕ) : ℕ := min ((i + 1) * s) N

/-- Source line 25: total_segments = math.ceil of total_samples divided by
segment_samples, for a positive window size, as the natural number over
which the loop ranges. -/
def totalSegs (s N : ℕ) : ℕ := (⌈(N : ℚ) / (s : ℚ)⌉).toNat

/-- The spec's window sample count: the floor of W * R. -/
def window_sample_count (W R : ℚ) : ℤ := ⌊W * R⌋

/-- Outcome of one model.transcribe call on a window: the call either
raises, or returns a dictionary whose text field may be absent
(source line 55 reads it with result.get). -/
inductive TranscribeResult where
  | raise : TranscribeResult
  | result (text : Option String) : TranscribeResult
deriving DecidableEq

/-- Python str.strip with no arguments: remove leading and trailing
whitespace characters (source line 55). -/
def pyStrip (t : String) : String :=
  String.mk (((t.toList.dropWhile Char.isWhitespace).reverse.dropWhile
    Char.isWhitespace).reverse)

/-- Round a rational to the nearest integer, ties to even: the rounding
used when formatting a value with one decimal place. -/
def roundHalfEven (q : ℚ) : ℤ :=
  let f := ⌊q⌋
  let r := q - f
  if r < 1 / 2 then f
  else if 1 / 2 < r then f + 1
  else if f % 2 = 0 then f else f + 1

/-- Decimal rendering of a signed number of tenths, with one digit after
the decimal point. -/
def fmtTenths (m : ℤ) : String :=
  let a := m.natAbs
  (if m < 0 then "-" else "") ++ toString (a / 10) ++ "." ++ toString (a % 10)

/-- Right-align a rendered number in a field of width 6 by left-padding
with spaces; a longer rendering widens the field. -/
def padTo6 (t : String) : String :=
  if t.length < 6 then String.mk (List.replicate (6 - t.length) ' ') ++ t else t

/-- Python fixed-point formatting with one decimal place. -/
def fmt1f (q : ℚ) : String := fmtTenths (roundHalfEven (q * 10))

/-- Python fixed-point formatting with one decimal place, right-aligned
to width 6: the 6.1f conversion of the source's format string. -/
def fmt6_1f (q : ℚ) : String := padTo6 (fmt1f q)

/-- Source line 63: the formatted output line, an opening bracket, the
6.1f start time, an en dash, the 6.1f end time, the letter s, a closing
bracket, a space, the text, and a newline. -/
def formatLine (start_time end_time : ℚ) (text : String) : String :=
  "[" ++ fmt6_1f start_time ++ "–" ++ fmt6_1f end_time ++ "s] " ++ text ++ "\n"

/-- Source lines 35-63, the body of the loop over range(total_segments),
run over an explicit list of window indices.  Returns the list of lines
written to the output file and whether model.transcribe raised, which
aborts the loop at that window, keeping the lines of earlier windows.
The skip condition is line 41, the slice length below sr * 0.5 where the
slice length is end - start; the time stamps are lines 44-45, start / sr
and end / sr; the write guard is line 61. -/
def assembleAux (R : ℤ) (s N : ℕ) (tr : ℕ → TranscribeResult) :
    List ℕ → List String × Bool
  | [] => ([], false)
  | i :: rest =>
    let start := segStart s i
    let e := segEnd s N i
    if ((e - start : ℕ) : ℚ) < (R : ℚ) * (1 / 2) then
      assembleAux R s N tr rest
    else
      match tr i with
      | TranscribeResult.raise => ([], true)
      | TranscribeResult.result t =>
        let text := pyStrip (t.getD "")
        let tail := assembleAux R s N tr rest
        ((if text = "" then [] else
            [formatLine ((start : ℚ) / (R : ℚ)) ((e : ℚ) / (R : ℚ)) text]) ++ tail.1,
         tail.2)

/-- How a run of the script can end. -/
inductive Outcome where
  | completed
  | inputError
  | zeroDivisionError
  | recognitionError
deriving DecidableEq

/-- Source lines 20-63 with the two configuration constants generalized:
W plays the role of segment_sec and R of sr, both integers as in the
source.  pre is the content of the file at the output path before the
run; the first component of the result is the content after it.
If segment_samples, the product of W and R, is zero, line 25 raises
ZeroDivisionError before lines 29-34 touch the output path.  Otherwise
the pre-existing file is deleted (lines 30-31) and a fresh one is opened
in append mode (line 34), so the final content is exactly the
concatenation of the lines written by the loop.  When the product is
negative, math.ceil of the non-positive quotient is non-positive, so
range(total_segments) is empty and the loop body is never consulted. -/
def configRun (W R : ℤ) (N : ℕ) (tr : ℕ → TranscribeResult)
    (pre : Option String) : Option String × Outcome :=
  let s : ℤ := W * R
  if s = 0 then (pre, Outcome.zeroDivisionError)
  else
    let total : ℤ := ⌈(N : ℚ) / (s : ℚ)⌉
    let r := assembleAux R s.toNat N tr (List.range total.toNat)
    (some (String.join r.1), if r.2 then Outcome.recognitionError else Outcome.completed)

/-- The whole script: source line 17, load_audio, may raise before
anything touches the output path (none models that failure); on success
the rest of the script is configRun at the source's configuration. -/
def runProgram (load : Option ℕ) (tr : ℕ → TranscribeResult)
    (pre : Option String) : Option String × Outcome :=
  match load with
  | none => (pre, Outcome.inputError)
  | some N => configRun segment_sec sr N tr pre

/-- CPython str.rfind for a single character on a list of characters:
the greatest index holding c, or -1. -/
def rfind (l : List Char) (c : Char) : ℤ :=
  match l.reverse.findIdx? (fun x => x = c) with
  | none => -1
  | some j => (l.length : ℤ) - 1 - (j : ℤ)

/-- CPython os.path.splitext applied at source line 29, root component:
the path up to the last dot, provided that dot lies after the last
separator and the file name does not consist solely of dots up to it. -/
def splitextRoot (p : String) : String :=
  let l := p.toList
  let sepIndex := rfind l '/'
  let dotIndex := rfind l '.'
  if sepIndex < dotIndex ∧
      ∃ fi < l.length, sepIndex < (fi : ℤ) ∧ (fi : ℤ) < dotIndex ∧ l.getD fi '.' ≠ '.'
  then String.mk (l.take dotIndex.toNat)
  else p

/-- Source line 29: the output path is the root of the input path with
the suffix .txt appended. -/
def out_path (p : String) : String := splitextRoot p ++ ".txt"

/-- The minimum-duration filter of source line 41, as a predicate:
a window is kept when its sample length is not below sr * 0.5. -/
def keepSeg (R : ℤ) (s N i : ℕ) : Bool :=
  decide (¬ (((segEnd s N i - segStart s i : ℕ) : ℚ) < (R : ℚ) * (1 / 2)))

/-- The trimmed recognized text of window i; empty when the call raised,
a case that never reaches line 55 of the source. -/
def resultText (tr : ℕ → TranscribeResult) (i : ℕ) : String :=
  match tr i with
  | TranscribeResult.raise => ""
  | TranscribeResult.result t => pyStrip (t.getD "")

/-- A window qualifies for output when it passes the minimum-duration
filter and its trimmed recognized text is non-empty. -/
def qualifies (R : ℤ) (s N : ℕ) (tr : ℕ → TranscribeResult) (i : ℕ) : Bool :=
  keepSeg R s N i && !(resultText tr i == "")

/-- The output line belonging to window i. -/
def lineOf (R : ℤ) (s N : ℕ) (tr : ℕ → TranscribeResult) (i : ℕ) : String :=
  formatLine ((segStart s i : ℚ) / (R : ℚ)) ((segEnd s N i : ℚ) / (R : ℚ))
    (resultText tr i)

/-- The lines window i contributes to the output file. -/
def emittedAt (R : ℤ) (s N : ℕ) (tr : ℕ → TranscribeResult) (i : ℕ) : List String :=
  if qualifies R s N tr i then [lineOf R s N tr i] else []

/-- Concatenation of the contributions of a list of windows. -/
def emittedBefore (R : ℤ) (s N : ℕ) (tr : ℕ → TranscribeResult) :
    List ℕ → List String
  | [] => []
  | i :: rest => emittedAt R s N tr i ++ emittedBefore R s N tr rest

/-- The loop of the script at its own configuration. -/
def runLines (N : ℕ) (tr : ℕ → TranscribeResult) : List String × Bool :=
  assembleAux sr segment_samples N tr (List.range (totalSegs segment_samples N))

/-- Concrete recognizer oracle: always raises. -/
def trRaise : ℕ → TranscribeResult := fun _ => TranscribeResult.raise

/-- Concrete recognizer oracle: recognizes the word hi on every window. -/
def trHi : ℕ → TranscribeResult := fun _ => TranscribeResult.result (some "hi")

/-- Concrete recognizer oracle: recognizes hi on window 0 and raises on
every later window. -/
def trHiThenRaise : ℕ → TranscribeResult :=
  fun j => if j = 0 then TranscribeResult.result (some "hi") else TranscribeResult.raise

/-- Concrete recognizer oracle: text with surrounding whitespace. -/
def trPadded : ℕ → TranscribeResult :=
  fun _ => TranscribeResult.result (some " hello ")

/-- Concrete recognizer oracle: whitespace-only text on every window. -/
def trSilent : ℕ → TranscribeResult :=
  fun _ => TranscribeResult.result (some "  ")

lemma segment_samples_eq : segment_samples = 480000 := by decide

lemma totalSegs_eq (s N : ℕ) (hs : 0 < s) : totalSegs s N = (N + s - 1) / s := by
  have hsQ : (0 : ℚ) < (s : ℚ) := by exact_mod_cast hs
  set k : ℕ := (N + s - 1) / s with hk
  have hceil : ⌈(N : ℚ) / (s : ℚ)⌉ = (k : ℤ) := by
    rw [Int.ceil_eq_iff]
    constructor
    · have h2 : (k : ℚ) * (s : ℚ) < (N : ℚ) + (s : ℚ) := by
        rcases Nat.eq_zero_or_pos N with hN | hN
        · have hk0 : k = 0 := by
            rw [hk]
            exact Nat.div_eq_of_lt (by omega)
          rw [hk0, hN]
          push_cast
          simpa using hsQ
        · have h1 : k * s ≤ N + s - 1 := Nat.div_mul_le_self _ _
          have h1' : k * s < N + s := by omega
          exact_mod_cast h1'
      refine (lt_div_iff₀ hsQ).mpr ?_
      push_cast
      nlinarith
    · have h4 : N ≤ k * s := by
        have h1 : k * s + (N + s - 1) % s = N + s - 1 := by
          rw [hk]
          exact Nat.div_add_mod' (N + s - 1) s
        have hm : (N + s - 1) % s < s := Nat.mod_lt _ hs
        omega
      rw [div_le_iff₀ hsQ]
      exact_mod_cast h4
  unfold totalSegs
  rw [hceil]
  exact Int.toNat_natCast k

lemma lt_totalSegs_iff {s N i : ℕ} (hs : 0 < s) : i < totalSegs s N ↔ i * s < N := by
  have hsQ : (0 : ℚ) < (s : ℚ) := by exact_mod_cast hs
  unfold totalSegs
  rw [Int.lt_toNat, Int.lt_ceil, lt_div_iff₀ hsQ]
  constructor
  · intro h
    exact_mod_cast h
  · intro h
    exact_mod_cast h

lemma keepSeg_eq (R : ℤ) (s N i : ℕ) :
    keepSeg R s N i =
      decide (R ≤ 2 * ((segEnd s N i - segStart s i : ℕ) : ℤ)) := by
  unfold keepSeg
  rw [decide_eq_decide]
  rw [not_lt, show (R : ℚ) * (1 / 2) = (R : ℚ) / 2 by ring,
    div_le_iff₀ (by norm_num : (0 : ℚ) < 2)]
  constructor
  · intro h
    have h2 : (R : ℚ) ≤ 2 * ((segEnd s N i - segStart s i : ℕ) : ℚ) := by linarith
    exact_mod_cast h2
  · intro h
    have h2 : (R : ℚ) ≤ 2 * ((segEnd s N i - segStart s i : ℕ) : ℚ) := by exact_mod_cast h
    linarith

lemma roundHalfEven_intCast (n : ℤ) : roundHalfEven ((n : ℚ)) = n := by
  unfold roundHalfEven
  rw [Int.floor_intCast]
  norm_num

lemma fmt6_1f_eval (q : ℚ) (m : ℤ) (h : q * 10 = (m : ℚ)) :
    fmt6_1f q = padTo6 (fmtTenths m) := by
  unfold fmt6_1f fmt1f
  rw [h, roundHalfEven_intCast]

lemma formatLine_eval (st et : ℚ) (ms mt : ℤ) (text : String)
    (h1 : st * 10 = (ms : ℚ)) (h2 : et * 10 = (mt : ℚ)) :
    formatLine st et text =
      "[" ++ padTo6 (fmtTenths ms) ++ "–" ++ padTo6 (fmtTenths mt) ++ "s] " ++
        text ++ "\n" := by
  unfold formatLine
  rw [fmt6_1f_eval st ms h1, fmt6_1f_eval et mt h2]

example : totalSegs 480000 1200000 = 3 := by
  rw [totalSegs_eq 480000 1200000 (by norm_num)]

example : padTo6 (fmtTenths 0) = "   0.0" := by decide
example : padTo6 (fmtTenths 300) = "  30.0" := by decide
example : formatLine 0 30 "hello" = "[   0.0–  30.0s] hello\n" := by
  rw [formatLine_eval 0 30 0 300 "hello" (by norm_num) (by norm_num)]
  decide
example : pyStrip "  hello " = "hello" := by decide
example : splitextRoot "files.wav" = "files" := by decide

lemma keepSeg_false_cond {R : ℤ} {s N i : ℕ} (h : keepSeg R s N i = false) :
    ((segEnd s N i - segStart s i : ℕ) : ℚ) < (R : ℚ) * (1 / 2) := by
  unfold keepSeg at h
  rw [decide_eq_false_iff_not] at h
  exact not_not.mp h

lemma keepSeg_true_cond {R : ℤ} {s N i : ℕ} (h : keepSeg R s N i = true) :
    ¬ (((segEnd s N i - segStart s i : ℕ) : ℚ) < (R : ℚ) * (1 / 2)) := by
  unfold keepSeg at h
  exact of_decide_eq_true h

lemma assembleAux_nil (R : ℤ) (s N : ℕ) (tr : ℕ → TranscribeResult) :
    assembleAux R s N tr [] = ([], false) := rfl

lemma assembleAux_cons_dropped {R : ℤ} {s N i : ℕ} {tr : ℕ → TranscribeResult}
    {rest : List ℕ} (h : keepSeg R s N i = false) :
    assembleAux R s N tr (i :: rest) = assembleAux R s N tr rest := by
  simp only [assembleAux]
  rw [if_pos (keepSeg_false_cond h)]

lemma assembleAux_cons_raise {R : ℤ} {s N i : ℕ} {tr : ℕ → TranscribeResult}
    {rest : List ℕ} (h : keepSeg R s N i = true)
    (h2 : tr i = TranscribeResult.raise) :
    assembleAux R s N tr (i :: rest) = ([], true) := by
  simp only [assembleAux]
  rw [if_neg (keepSeg_true_cond h), h2]

lemma emittedAt_dropped {R : ℤ} {s N i : ℕ} {tr : ℕ → TranscribeResult}
    (h : keepSeg R s N i = false) : emittedAt R s N tr i = [] := by
  unfold emittedAt qualifies
  rw [h]
  simp

lemma emittedAt_result {R : ℤ} {s N i : ℕ} {tr : ℕ → TranscribeResult}
    {t : Option String} (h : keepSeg R s N i = true)
    (h2 : tr i = TranscribeResult.result t) :
    emittedAt R s N tr i =
      if pyStrip (t.getD "") = "" then []
      else [formatLine ((segStart s i : ℚ) / (R : ℚ)) ((segEnd s N i : ℚ) / (R : ℚ))
        (pyStrip (t.getD ""))] := by
  unfold emittedAt qualifies lineOf resultText
  rw [h, h2]
  by_cases ht : pyStrip (t.getD "") = ""
  · simp [ht]
  · simp [ht]

lemma assembleAux_cons_result {R : ℤ} {s N i : ℕ} {tr : ℕ → TranscribeResult}
    {t : Option String} {rest : List ℕ} (h : keepSeg R s N i = true)
    (h2 : tr i = TranscribeResult.result t) :
    assembleAux R s N tr (i :: rest) =
      (emittedAt R s N tr i ++ (assembleAux R s N tr rest).1,
       (assembleAux R s N tr rest).2) := by
  simp only [assembleAux]
  rw [if_neg (keepSeg_true_cond h), h2, emittedAt_result h h2]

lemma assembleAux_no_raise {R : ℤ} {s N : ℕ} {tr : ℕ → TranscribeResult}
    (idxs : List ℕ)
    (hnr : ∀ i ∈ idxs, keepSeg R s N i = true → tr i ≠ TranscribeResult.raise) :
    assembleAux R s N tr idxs = (emittedBefore R s N tr idxs, false) := by
  induction idxs with
  | nil => rfl
  | cons i rest ih =>
    have ih2 := ih (fun j hj h => hnr j (List.mem_cons_of_mem _ hj) h)
    cases hkeep : keepSeg R s N i with
    | false =>
      rw [assembleAux_cons_dropped hkeep, ih2]
      simp [emittedBefore, emittedAt_dropped hkeep]
    | true =>
      cases htr : tr i with
      | raise => exact absurd htr (hnr i (List.mem_cons_self _ _) hkeep)
      | result t =>
        rw [assembleAux_cons_result hkeep htr, ih2]
        simp [emittedBefore]

lemma assembleAux_raise_at {R : ℤ} {s N : ℕ} {tr : ℕ → TranscribeResult}
    (la lb : List ℕ) (k : ℕ)
    (hnr : ∀ i ∈ la, keepSeg R s N i = true → tr i ≠ TranscribeResult.raise)
    (hkeep : keepSeg R s N k = true) (hraise : tr k = TranscribeResult.raise) :
    assembleAux R s N tr (la ++ k :: lb) = (emittedBefore R s N tr la, true) := by
  induction la with
  | nil =>
    simp only [List.nil_append]
    rw [assembleAux_cons_raise hkeep hraise]
    rfl
  | cons i rest ih =>
    have ih2 := ih (fun j hj h => hnr j (List.mem_cons_of_mem _ hj) h)
    cases hk2 : keepSeg R s N i with
    | false =>
      rw [List.cons_append, assembleAux_cons_dropped hk2, ih2]
      simp [emittedBefore, emittedAt_dropped hk2]
    | true =>
      cases htr : tr i with
      | raise => exact absurd htr (hnr i (List.mem_cons_self _ _) hk2)
      | result t =>
        rw [List.cons_append, assembleAux_cons_result hk2 htr, ih2]
        simp [emittedBefore]

lemma emittedBefore_eq (R : ℤ) (s N : ℕ) (tr : ℕ → TranscribeResult)
    (idxs : List ℕ) :
    emittedBefore R s N tr idxs
      = (idxs.filter (fun i => qualifies R s N tr i)).map (lineOf R s N tr) := by
  induction idxs with
  | nil => rfl
  | cons i rest ih =>
    cases hq : qualifies R s N tr i with
    | false => simp [emittedBefore, emittedAt, hq, List.filter_cons, ih]
    | true => simp [emittedBefore, emittedAt, hq, List.filter_cons, ih]

lemma range_split {k T : ℕ} (h : k < T) :
    ∃ lb, List.range T = List.range k ++ k :: lb := by
  induction T with
  | zero => omega
  | succ T ih =>
    rcases Nat.lt_or_ge k T with h2 | h2
    · obtain ⟨lb, hl⟩ := ih h2
      refine ⟨lb ++ [T], ?_⟩
      rw [List.range_succ, hl]
      simp
    · have hk : k = T := by omega
      subst hk
      exact ⟨[], by rw [List.range_succ]⟩

lemma mem_assembleAux {R : ℤ} {s N : ℕ} {tr : ℕ → TranscribeResult}
    (idxs : List ℕ) (l : String) (hl : l ∈ (assembleAux R s N tr idxs).1) :
    ∃ i ∈ idxs, l ∈ emittedAt R s N tr i := by
  induction idxs with
  | nil => simp [assembleAux_nil] at hl
  | cons i rest ih =>
    cases hkeep : keepSeg R s N i with
    | false =>
      rw [assembleAux_cons_dropped hkeep] at hl
      obtain ⟨j, hj, hj2⟩ := ih hl
      exact ⟨j, List.mem_cons_of_mem _ hj, hj2⟩
    | true =>
      cases htr : tr i with
      | raise =>
        rw [assembleAux_cons_raise hkeep htr] at hl
        simp at hl
      | result t =>
        rw [assembleAux_cons_result hkeep htr] at hl
        rcases List.mem_append.mp hl with h1 | h1
        · exact ⟨i, List.mem_cons_self _ _, h1⟩
        · obtain ⟨j, hj, hj2⟩ := ih h1
          exact ⟨j, List.mem_cons_of_mem _ hj, hj2⟩

lemma emittedBefore_silent {R : ℤ} {s N : ℕ} {tr : ℕ → TranscribeResult}
    (idxs : List ℕ)
    (h : ∀ i, ∃ t, tr i = TranscribeResult.result t ∧ pyStrip (t.getD "") = "") :
    emittedBefore R s N tr idxs = [] := by
  induction idxs with
  | nil => rfl
  | cons i rest ih =>
    obtain ⟨t, ht, hstrip⟩ := h i
    have hq : qualifies R s N tr i = false := by
      unfold qualifies resultText
      rw [ht]
      simp [hstrip]
    simp [emittedBefore, emittedAt, hq, ih]

lemma assembleAux_silent {R : ℤ} {s N : ℕ} {tr : ℕ → TranscribeResult}
    (idxs : List ℕ)
    (h : ∀ i, ∃ t, tr i = TranscribeResult.result t ∧ pyStrip (t.getD "") = "") :
    assembleAux R s N tr idxs = ([], false) := by
  have hnr : ∀ i ∈ idxs, keepSeg R s N i = true → tr i ≠ TranscribeResult.raise := by
    intro i _ _
    obtain ⟨t, ht, _⟩ := h i
    rw [ht]
    exact fun hc => TranscribeResult.noConfusion hc
  rw [assembleAux_no_raise idxs hnr, emittedBefore_silent idxs h]

lemma totalSegs_segment_samples (N : ℕ) :
    totalSegs segment_samples N = (N + 479999) / 480000 := by
  rw [segment_samples_eq, totalSegs_eq 480000 N (by norm_num)]
  congr 1

lemma pyStrip_eq_empty {u : String}
    (h : u.toList.all Char.isWhitespace = true) : pyStrip u = "" := by
  unfold pyStrip
  have h2 : u.toList.dropWhile Char.isWhitespace = [] := by
    rw [List.dropWhile_eq_nil_iff]
    intro x hx
    exact List.all_eq_true.mp h x hx
  rw [h2]
  rfl

/-- C1: for every total sample count N, with window_sample_count equal to
the floor of W times R and at least 1, window i starts at i times the
window sample count and ends at the minimum of the next multiple and N;
consecutive windows are contiguous and non-overlapping, the generated
windows cover every sample position below N, and every window is at most
one window sample count long. -/
theorem c1_window_geometry (W R : ℚ) (s N : ℕ)
    (hWR : window_sample_count W R = (s : ℤ)) (hs : 1 ≤ s) :
    (∀ i, segStart s i = i * s ∧ segEnd s N i = min ((i + 1) * s) N) ∧
    (∀ i, i + 1 < totalSegs s N → segEnd s N i = segStart s (i + 1)) ∧
    (∀ i j, i < j → segEnd s N i ≤ segStart s j) ∧
    (∀ x, x < N → ∃ i, i < totalSegs s N ∧ segStart s i ≤ x ∧ x < segEnd s N i) ∧
    (∀ i, segEnd s N i - segStart s i ≤ s) := by
  have hs0 : 0 < s := hs
  refine ⟨fun i => ⟨rfl, rfl⟩, ?_, ?_, ?_, ?_⟩
  · intro i hlt
    have h := (lt_totalSegs_iff hs0).mp hlt
    unfold segEnd segStart
    exact min_eq_left h.le
  · intro i j hij
    have h1 : segEnd s N i ≤ (i + 1) * s := min_le_left _ _
    have h2 : (i + 1) * s ≤ j * s := Nat.mul_le_mul_right s hij
    exact le_trans h1 h2
  · intro x hx
    refine ⟨x / s, ?_, Nat.div_mul_le_self x s, ?_⟩
    · rw [lt_totalSegs_iff hs0]
      exact lt_of_le_of_lt (Nat.div_mul_le_self x s) hx
    · unfold segEnd
      refine lt_min ?_ hx
      have hdm : x / s * s + x % s = x := Nat.div_add_mod' x s
      have hm : x % s < s := Nat.mod_lt x hs0
      rw [Nat.succ_mul]
      omega
  · intro i
    have h : segEnd s N i ≤ (i + 1) * s := min_le_left _ _
    have h2 : (i + 1) * s = i * s + s := Nat.succ_mul i s
    have h3 : segStart s i = i * s := rfl
    omega

/-- C1 instance: the source configuration, thirty-second windows at
16000 samples per second over a 1200000-sample input, covers sample
position 700000. -/
theorem c1_window_geometry_witness :
    window_sample_count 30 16000 = ((480000 : ℕ) : ℤ) ∧
    (∃ i, i < totalSegs 480000 1200000 ∧
      segStart 480000 i ≤ 700000 ∧ 700000 < segEnd 480000 1200000 i) := by
  have hw : window_sample_count 30 16000 = ((480000 : ℕ) : ℤ) := by
    unfold window_sample_count
    norm_num
  exact ⟨hw, (c1_window_geometry 30 16000 480000 1200000 hw (by norm_num)).2.2.2.1
    700000 (by norm_num)⟩

/-- C5: under the source configuration a window is excluded exactly when
its sample length is below sr times one half; every non-final window has
exactly segment_samples samples, so an excluded window is the final one. -/
theorem c5_min_duration_filter (N i : ℕ) (hi : i < totalSegs segment_samples N) :
    (keepSeg sr segment_samples N i = false ↔
      ((segEnd segment_samples N i - segStart segment_samples i : ℕ) : ℚ)
        < (sr : ℚ) * (1 / 2)) ∧
    (i + 1 < totalSegs segment_samples N →
      segEnd segment_samples N i - segStart segment_samples i = segment_samples) ∧
    (keepSeg sr segment_samples N i = false →
      i + 1 = totalSegs segment_samples N) := by
  have hs0 : 0 < segment_samples := by
    rw [segment_samples_eq]
    norm_num
  have hfull : ∀ j, j + 1 < totalSegs segment_samples N →
      segEnd segment_samples N j - segStart segment_samples j = segment_samples := by
    intro j hj
    have h := (lt_totalSegs_iff hs0).mp hj
    have h1 : segEnd segment_samples N j = (j + 1) * segment_samples :=
      min_eq_left h.le
    have h2 : (j + 1) * segment_samples = j * segment_samples + segment_samples :=
      Nat.succ_mul _ _
    have h3 : segStart segment_samples j = j * segment_samples := rfl
    omega
  refine ⟨⟨keepSeg_false_cond, ?_⟩, hfull i, ?_⟩
  · intro h
    cases hk : keepSeg sr segment_samples N i with
    | false => rfl
    | true => exact absurd h (keepSeg_true_cond hk)
  · intro hk
    by_contra hne
    have h2 : i + 1 < totalSegs segment_samples N := by omega
    have h3 := hfull i h2
    have h4 := keepSeg_false_cond hk
    rw [h3, segment_samples_eq] at h4
    norm_num [sr] at h4

/-- C5 instance: a 480100-sample input has two windows and the second,
100 samples long, is excluded and is the final window. -/
theorem c5_min_duration_filter_witness :
    1 < totalSegs segment_samples 480100 ∧
    (keepSeg sr segment_samples 480100 1 = false →
      1 + 1 = totalSegs segment_samples 480100) := by
  have hi : 1 < totalSegs segment_samples 480100 := by
    rw [totalSegs_segment_samples]
    decide
  exact ⟨hi, (c5_min_duration_filter 480100 1 hi).2.2⟩

/-- C3: if the recognizer raises on window k while no earlier kept window
raised, the loop stops there and the written lines are exactly the
formatted lines of the qualifying windows before k, in index order. -/
theorem c3_raise_truncates (N k : ℕ) (tr : ℕ → TranscribeResult)
    (hk1 : 1 ≤ k) (hk : k < totalSegs segment_samples N)
    (hkeep : keepSeg sr segment_samples N k = true)
    (hraise : tr k = TranscribeResult.raise)
    (hbefore : ∀ i, i < k → keepSeg sr segment_samples N i = true →
      tr i ≠ TranscribeResult.raise) :
    runLines N tr =
      (((List.range k).filter (fun i => qualifies sr segment_samples N tr i)).map
        (lineOf sr segment_samples N tr), true) := by
  obtain ⟨lb, hsplit⟩ := range_split hk
  unfold runLines
  rw [hsplit,
    assembleAux_raise_at (List.range k) lb k
      (fun i hi h => hbefore i (List.mem_range.mp hi) h) hkeep hraise,
    emittedBefore_eq]

/-- C3 instance: two full windows, recognition succeeds on window 0 and
raises on window 1: the run ends in an error with only window 0's line. -/
theorem c3_raise_truncates_witness :
    1 < totalSegs segment_samples 960000 ∧
    runLines 960000 trHiThenRaise =
      (((List.range 1).filter
        (fun i => qualifies sr segment_samples 960000 trHiThenRaise i)).map
        (lineOf sr segment_samples 960000 trHiThenRaise), true) := by
  have hk : 1 < totalSegs segment_samples 960000 := by
    rw [totalSegs_segment_samples]
    decide
  refine ⟨hk, c3_raise_truncates 960000 1 trHiThenRaise (by norm_num) hk ?_ ?_ ?_⟩
  · rw [keepSeg_eq]
    decide
  · decide
  · intro i hi _
    have hi0 : i = 0 := by omega
    subst hi0
    decide

/-- C7: on a kept window whose transcribe call returns a dictionary, the
text field is trimmed with an absent field treated as the empty string;
an empty or whitespace-only trimmed text emits no line and raises no
error, and a non-empty trimmed text emits exactly one formatted line. -/
theorem c7_text_trimming (N i : ℕ) (tr : ℕ → TranscribeResult) (t : Option String)
    (hkeep : keepSeg sr segment_samples N i = true)
    (ht : tr i = TranscribeResult.result t) :
    assembleAux sr segment_samples N tr [i]
      = (emittedAt sr segment_samples N tr i, false) ∧
    (emittedAt sr segment_samples N tr i).length ≤ 1 ∧
    (t = none → emittedAt sr segment_samples N tr i = []) ∧
    ((t.getD "").toList.all Char.isWhitespace = true →
      emittedAt sr segment_samples N tr i = []) ∧
    (pyStrip (t.getD "") ≠ "" →
      emittedAt sr segment_samples N tr i =
        [formatLine ((segStart segment_samples i : ℚ) / (sr : ℚ))
          ((segEnd segment_samples N i : ℚ) / (sr : ℚ)) (pyStrip (t.getD ""))]) := by
  have he := emittedAt_result hkeep ht
  refine ⟨?_, ?_, ?_, ?_, ?_⟩
  · rw [assembleAux_cons_result hkeep ht, assembleAux_nil]
    simp
  · rw [he]
    split <;> simp
  · intro h0
    subst h0
    have hs : pyStrip ((none : Option String).getD "") = "" := by decide
    rw [he, if_pos hs]
  · intro hws
    rw [he, if_pos (pyStrip_eq_empty hws)]
  · intro hne
    rw [he, if_neg hne]

/-- C7 instance: window 0 of a one-window input with recognized text
surrounded by whitespace emits exactly the line with the trimmed text. -/
theorem c7_text_trimming_witness :
    keepSeg sr segment_samples 480000 0 = true ∧
    (pyStrip ((some " hello ").getD "") ≠ "" →
      emittedAt sr segment_samples 480000 trPadded 0 =
        [formatLine ((segStart segment_samples 0 : ℚ) / (sr : ℚ))
          ((segEnd segment_samples 480000 0 : ℚ) / (sr : ℚ))
          (pyStrip ((some " hello ").getD ""))]) := by
  have hkeep : keepSeg sr segment_samples 480000 0 = true := by
    rw [keepSeg_eq]
    decide
  exact ⟨hkeep,
    (c7_text_trimming 480000 0 trPadded (some " hello ") hkeep rfl).2.2.2.2⟩

/-- C8: in a run where no kept window raises, the output lines are exactly
one formatted line per qualifying window, in window order, and their
start times are strictly increasing. -/
theorem c8_ordered_lines (N : ℕ) (tr : ℕ → TranscribeResult)
    (hnr : ∀ i, keepSeg sr segment_samples N i = true →
      tr i ≠ TranscribeResult.raise) :
    (runLines N tr).1 =
      ((List.range (totalSegs segment_samples N)).filter
        (fun i => qualifies sr segment_samples N tr i)).map
        (lineOf sr segment_samples N tr) ∧
    List.Pairwise (· < ·)
      (((List.range (totalSegs segment_samples N)).filter
        (fun i => qualifies sr segment_samples N tr i)).map
        (fun i => (segStart segment_samples i : ℚ) / (sr : ℚ))) := by
  constructor
  · unfold runLines
    rw [assembleAux_no_raise _ (fun i _ h => hnr i h), emittedBefore_eq]
  · have hp : List.Pairwise (· < ·) (List.range (totalSegs segment_samples N)) :=
      List.pairwise_lt_range _
    have hp2 : List.Pairwise (· < ·)
        ((List.range (totalSegs segment_samples N)).filter
          (fun i => qualifies sr segment_samples N tr i)) :=
      List.Pairwise.sublist (List.filter_sublist _) hp
    rw [List.pairwise_map]
    refine hp2.imp ?_
    intro a b hab
    have hsrq : (0 : ℚ) < ((sr : ℤ) : ℚ) := by norm_num [sr]
    have hs0 : 0 < segment_samples := by
      rw [segment_samples_eq]
      norm_num
    have h1 : (segStart segment_samples a : ℚ) < (segStart segment_samples b : ℚ) := by
      have h2 : segStart segment_samples a < segStart segment_samples b :=
        mul_lt_mul_of_pos_right hab hs0
      exact_mod_cast h2
    rw [div_lt_div_iff₀ hsrq hsrq]
    exact mul_lt_mul_of_pos_right h1 hsrq

/-- C8 instance: three windows of recognized text produce their lines in
order with strictly increasing start times. -/
theorem c8_ordered_lines_witness :
    (runLines 1200000 trHi).1 =
      ((List.range (totalSegs segment_samples 1200000)).filter
        (fun i => qualifies sr segment_samples 1200000 trHi i)).map
        (lineOf sr segment_samples 1200000 trHi) :=
  (c8_ordered_lines 1200000 trHi
    (fun i _ hc => TranscribeResult.noConfusion hc)).1

/-- C6: every line the loop writes is an opening bracket, a width-6
one-decimal start time, an en dash, a width-6 one-decimal end time, the
letter s, a closing bracket, a space, a non-empty text, and a newline;
at start time 0 and end time 30 with text hello the line is exactly the
one claimed. -/
theorem c6_line_format :
    (∀ (N : ℕ) (tr : ℕ → TranscribeResult) (l : String),
        l ∈ (runLines N tr).1 →
        ∃ st et text, text ≠ "" ∧
          l = "[" ++ fmt6_1f st ++ "–" ++ fmt6_1f et ++ "s] " ++ text ++ "\n") ∧
    formatLine 0 30 "hello" = "[   0.0–  30.0s] hello\n" := by
  constructor
  · intro N tr l hl
    obtain ⟨i, hi, hmem⟩ := mem_assembleAux _ l hl
    unfold emittedAt at hmem
    by_cases hq : qualifies sr segment_samples N tr i = true
    · rw [if_pos hq] at hmem
      have hl2 : l = lineOf sr segment_samples N tr i := List.mem_singleton.mp hmem
      have hq2 : resultText tr i ≠ "" := by
        unfold qualifies at hq
        simp only [Bool.and_eq_true, Bool.not_eq_true', beq_eq_false_iff_ne, ne_eq] at hq
        exact hq.2
      refine ⟨(segStart segment_samples i : ℚ) / (sr : ℚ),
        (segEnd segment_samples N i : ℚ) / (sr : ℚ), resultText tr i, hq2, ?_⟩
      rw [hl2]
      rfl
    · rw [if_neg hq] at hmem
      simp at hmem
  · rw [formatLine_eval 0 30 0 300 "hello" (by norm_num) (by norm_num)]
    decide

/-- C6 instance: the single line of a one-window run has the claimed
shape, and the concrete formatting example holds. -/
theorem c6_line_format_witness :
    (∃ st et text, text ≠ "" ∧
      lineOf sr segment_samples 480000 trHi 0 =
        "[" ++ fmt6_1f st ++ "–" ++ fmt6_1f et ++ "s] " ++ text ++ "\n") ∧
    formatLine 0 30 "hello" = "[   0.0–  30.0s] hello\n" := by
  have h1 : totalSegs segment_samples 480000 = 1 := by
    rw [totalSegs_segment_samples]
  have hq : qualifies sr segment_samples 480000 trHi 0 = true := by
    unfold qualifies
    rw [keepSeg_eq]
    decide
  have hrun : (runLines 480000 trHi).1 = [lineOf sr segment_samples 480000 trHi 0] := by
    unfold runLines
    have hr1 : List.range 1 = [0] := rfl
    rw [assembleAux_no_raise _ (fun i _ h => fun hc => TranscribeResult.noConfusion hc),
      emittedBefore_eq, h1, hr1]
    simp [List.filter_cons, hq]
  exact ⟨c6_line_format.1 480000 trHi _
    (by rw [hrun]; exact List.mem_singleton.mpr rfl), c6_line_format.2⟩

/-- C9: the output path of the source's input is files.txt; the run's
result does not depend on any pre-existing file at that path, which is
deleted before writing; an empty input or an input on which every window
is recognized as whitespace-only completes without error and leaves an
empty output file. -/
theorem c9_fresh_output (N : ℕ) (tr : ℕ → TranscribeResult) (pre : Option String)
    (hsilent : ∀ i, ∃ t, tr i = TranscribeResult.result t ∧ pyStrip (t.getD "") = "") :
    out_path "files.wav" = "files.txt" ∧
    (∀ (M : ℕ) (tr2 : ℕ → TranscribeResult) (pa pb : Option String),
      runProgram (some M) tr2 pa = runProgram (some M) tr2 pb) ∧
    (∀ (tr3 : ℕ → TranscribeResult) (p3 : Option String),
      runProgram (some 0) tr3 p3 = (some "", Outcome.completed)) ∧
    runProgram (some N) tr pre = (some "", Outcome.completed) := by
  have hsne : (segment_sec * sr : ℤ) ≠ 0 := by decide
  refine ⟨by decide, ?_, ?_, ?_⟩
  · intro M tr2 pa pb
    simp only [runProgram, configRun]
    rw [if_neg hsne, if_neg hsne]
  · intro tr3 p3
    simp only [runProgram, configRun]
    rw [if_neg hsne]
    have h0 : (⌈((0 : ℕ) : ℚ) / ((segment_sec * sr : ℤ) : ℚ)⌉ : ℤ) = 0 := by
      norm_num
    rw [h0]
    rfl
  · simp only [runProgram, configRun]
    rw [if_neg hsne, assembleAux_silent _ hsilent]
    rfl

/-- C9 instance: a silent 17-sample input over a stale pre-existing file
completes and leaves an empty output file. -/
theorem c9_fresh_output_witness :
    runProgram (some 17) trSilent (some "stale") = (some "", Outcome.completed) :=
  (c9_fresh_output 17 trSilent (some "stale")
    (fun _ => ⟨some "  ", rfl, by decide⟩)).2.2.2

/-- C10: when the audio loader fails, the run ends in the input error
outcome and the file at the output path is neither created nor modified:
whatever was there before, including nothing, is still there. -/
theorem c10_load_failure_untouched (tr : ℕ → TranscribeResult) (pre : Option String) :
    runProgram none tr pre = (pre, Outcome.inputError) := rfl

/-- C4 (amended): when the product of window duration and sample rate is
zero the program fails with an uncaught division-by-zero error before
any window is produced and before the output path is touched; when the
product is negative no error is raised at all: the run completes with
zero windows and recreates the output file as empty. -/
theorem c4_invalid_window_config (W R : ℤ) (N : ℕ) (tr : ℕ → TranscribeResult)
    (pre : Option String) :
    (W * R = 0 → configRun W R N tr pre = (pre, Outcome.zeroDivisionError)) ∧
    (W * R < 0 → configRun W R N tr pre = (some "", Outcome.completed)) := by
  constructor
  · intro h
    simp only [configRun]
    rw [if_pos h]
  · intro h
    simp only [configRun]
    rw [if_neg (by omega : ¬ (W * R = 0))]
    have htot : (⌈(N : ℚ) / ((W * R : ℤ) : ℚ)⌉ : ℤ) ≤ 0 := by
      rw [Int.ceil_le]
      push_cast
      have hb : (W : ℚ) * (R : ℚ) ≤ 0 := by exact_mod_cast h.le
      exact div_nonpos_of_nonneg_of_nonpos (Nat.cast_nonneg N) hb
    rw [Int.toNat_of_nonpos htot]
    rfl

/-- C4 amended instance: a zero window duration makes the run fail with
the division error, leaving the pre-existing output file untouched. -/
theorem c4_invalid_window_config_witness :
    (0 : ℤ) * 16000 = 0 ∧
    configRun 0 16000 5 trRaise (some "old") = (some "old", Outcome.zeroDivisionError) :=
  ⟨by norm_num, (c4_invalid_window_config 0 16000 5 trRaise (some "old")).1 (by norm_num)⟩

/-- C4 counterexample: with window duration -1, which is not positive,
the program does not fail at all: the run completes and recreates the
output file as empty, replacing its previous content, contradicting the
claim that every non-positive window duration fails fast before any
output is written. -/
theorem c4_counterexample :
    (-1 : ℤ) ≤ 0 ∧
    configRun (-1) 16000 100 trRaise (some "old") = (some "", Outcome.completed) := by
  refine ⟨by norm_num, ?_⟩
  simp only [configRun]
  rw [if_neg (by norm_num : ¬ ((-1 : ℤ) * 16000 = 0))]
  have htot : (⌈((100 : ℕ) : ℚ) / (((-1 : ℤ) * 16000 : ℤ) : ℚ)⌉ : ℤ) ≤ 0 := by
    rw [Int.ceil_le]
    push_cast
    norm_num
  rw [Int.toNat_of_nonpos htot]
  rfl

end TranscribeSegments
